import Mathlib

/-!
Shallow embedding of the ballistics-calculator core
(`src/main.rs` of Sl-L/create-big-cannons-ballistics-calculator).

`f64` values are modelled as real numbers; the unbounded `loop`s of the
source are modelled with an explicit fuel parameter, where `none` means
that no normal value was produced within the given fuel (this also covers
the source's `panic!`, which aborts without producing a value).
-/

noncomputable section

open Real

/-- Rust's `f64::signum` on non-NaN inputs: `-1` for negatives, `1`
otherwise (the real number `0` plays the role of `+0.0`). -/
def rsignum (x : ℝ) : ℝ := if x < 0 then -1 else 1

/-- `std::f64::consts::TAU`. -/
def tau : ℝ := 2 * Real.pi

/-- Rust `y.atan2(x)`: the angle of the point `(x, y)`, in `(-pi, pi]`. -/
def atan2 (y x : ℝ) : ℝ := Complex.arg ⟨x, y⟩

/-- `angle_check` (src/main.rs:44-47): the trajectory-equation residual,
a function of range `x`, drop `y`, drag `u`, velocity `v`, pitch `a`
and gravity `g` whose roots in `a` are the firing pitch angles. -/
def angle_check (x y u v a g : ℝ) : ℝ :=
  let p : ℝ := (x * u) / (v * Real.cos a)
  (u * u * x * Real.tan a) / g + p - (y * u * u) / g + Real.log (1 - p)

/-- The auxiliary function solved by `find_critical_point`
(src/main.rs:57): `g*x*sin a + u*v*x - v*v*cos a`. -/
def fcp_f (x u v g a : ℝ) : ℝ :=
  g * x * Real.sin a + u * v * x - v * v * Real.cos a

/-- The false-position loop of `find_critical_point` (src/main.rs:56-70),
with fuel.  State `(a, b)` are the two current endpoints. -/
def fcp_aux (x u v g : ℝ) : ℕ → ℝ → ℝ → Option ℝ
  | 0, _, _ => none
  | n + 1, a, b =>
    let fa := fcp_f x u v g a
    let fb := fcp_f x u v g b
    let c := b - fb * (b - a) / (fb - fa)
    let fc := fcp_f x u v g c
    if |fc| < 0.00001 then some c
    else if rsignum fc = rsignum fa then fcp_aux x u v g n c b
    else fcp_aux x u v g n a c

/-- `find_critical_point` (src/main.rs:51-73). -/
def find_critical_point (x u v g : ℝ) (fuel : ℕ) : Option ℝ :=
  fcp_aux x u v g fuel (atan2 (g * x) (v * v)) (atan2 (g * x) (-(v * v)))

/-- The probe update of the bracket walk in `find_angles`
(src/main.rs:99-100): branch `i = 0` adds 0.1 degrees in radians,
branch `i = 1` subtracts it. -/
def walk_update (i : ℕ) (b : ℝ) : ℝ :=
  if i = 0 then b + 0.0017453292519943296 else b - 0.0017453292519943296

/-- The bracket-walk loop of `find_angles` (src/main.rs:95-102): step the
probe `b` until the residual at `b` is negative. -/
def bracket_walk (resid : ℝ → ℝ) (i : ℕ) : ℕ → ℝ → Option ℝ
  | 0, _ => none
  | n + 1, b => if resid b < 0 then some b else bracket_walk resid i n (walk_update i b)

/-- The secant-refinement loop of `find_angles` (src/main.rs:105-121),
with fuel.  The source's `panic!` branch (residual sign matching neither
endpoint, only possible for NaN in Rust) aborts without a value and is
modelled as `none`. -/
def secant (resid : ℝ → ℝ) : ℕ → ℝ → ℝ → Option ℝ
  | 0, _, _ => none
  | n + 1, a, b =>
    let fa := resid a
    let fb := resid b
    let c := b - fb * (b - a) / (fb - fa)
    let fc := resid c
    if |fc| < 1e-12 then some c
    else if rsignum fc = rsignum fa then secant resid n c b
    else if rsignum fc = rsignum fb then secant resid n a c
    else none

/-- Initial probe of the low-arc branch (src/main.rs:91,93):
`-0.011111111 / TAU - TAU / 4`. -/
def b0lo : ℝ := -0.011111111 / tau - tau / 4

/-- Initial probe of the high-arc branch (src/main.rs:91-92):
`-0.011111111 / TAU + TAU / 4`. -/
def b0hi : ℝ := -0.011111111 / tau + tau / 4

/-- body of `find_angles` (src/main.rs:78-126) after the residual
function and the gate value have been formed: `cpa` is the value the
source computes on line 81, `resid` the residual used by the loops. -/
def find_angles_core (resid : ℝ → ℝ) (cpa cp : ℝ) (fuel : ℕ) :
    Option (Except String (ℝ × ℝ)) :=
  if cpa < 0 then some (Except.error "Out of range")
  else if cpa < 1e-12 then some (Except.ok (cpa, cpa))
  else
    match bracket_walk resid 0 fuel b0lo with
    | none => none
    | some blo =>
      match secant resid fuel cp blo with
      | none => none
      | some d =>
        match bracket_walk resid 1 fuel b0hi with
        | none => none
        | some bhi =>
          match secant resid fuel cp bhi with
          | none => none
          | some ind => some (Except.ok (d, ind))

/-- `find_angles` (src/main.rs:78-126).  Note that line 81 of the source
passes `g` in the pitch slot and `critical_point` in the gravity slot of
`angle_check`, while the loops (lines 96, 106-111) use the ordinary
argument order. -/
def find_angles (x y u v g cp : ℝ) (fuel : ℕ) : Option (Except String (ℝ × ℝ)) :=
  find_angles_core (fun b => angle_check x y u v b g) (angle_check x y u v g cp) cp fuel

/-- `calc_yaw` (src/main.rs:137-141). -/
def calc_yaw (x z : ℝ) : ℝ :=
  let yaw := -(atan2 x z)
  if yaw < 0 then yaw + tau else yaw

/-- `AmmoType` (src/main.rs:142-149). -/
inductive AmmoType
  | Shot
  | APShot
  | APShell
  | HEShell
  | MortarStone
  | SmokeShell

/-- `Ammo` (src/main.rs:151-156). -/
structure Ammo where
  kind : AmmoType
  drag : ℝ
  gravity : ℝ
  name : String

def Ammo.shot : Ammo := ⟨AmmoType.Shot, 0.01, 10.0, "Shot"⟩

def Ammo.ap_shot : Ammo := ⟨AmmoType.APShot, 0.01, 10.0, "AP Shot"⟩

def Ammo.ap_shell : Ammo := ⟨AmmoType.APShell, 0.01, 10.0, "AP Shell"⟩

def Ammo.he_shell : Ammo := ⟨AmmoType.HEShell, 0.01, 10.0, "HE Shell"⟩

def Ammo.mortar_stone : Ammo := ⟨AmmoType.MortarStone, 0.01, 5.0, "Mortar Stone"⟩

def Ammo.smoke_shell : Ammo := ⟨AmmoType.SmokeShell, 0.01, 10.0, "Smoke Shell"⟩

/-- `Ammo::select` (src/main.rs:208-218); the Rust `match` on the string
is a first-match chain with a fall-through to `Ammo::shot()`. -/
def Ammo.select (ammo_type : String) : Ammo :=
  if ammo_type = "Shot" then Ammo.shot
  else if ammo_type = "AP Shot" then Ammo.ap_shot
  else if ammo_type = "AP Shell" then Ammo.ap_shell
  else if ammo_type = "HE Shell" then Ammo.he_shell
  else if ammo_type = "Mortar Stone" then Ammo.mortar_stone
  else if ammo_type = "Smoke Shell" then Ammo.smoke_shell
  else Ammo.shot

/-- Greedy optional single-character matcher: models the regex pieces
`-?` and `\.?` of `verify_signed_float_input`. -/
def splitLead (c0 : Char) (s : List Char) : List Char × List Char :=
  match s with
  | [] => ([], [])
  | c :: t => if c = c0 then ([c0], t) else ([], c :: t)

/-- The prefix of `s` matched by the anchored regex `^-?[0-9]*\.?[0-9]*`
under the regex crate's greedy (leftmost-first) semantics: each piece
takes its maximal match in order, and no backtracking occurs because
every later piece can match the empty string. -/
def extractSignedFloat (s : List Char) : List Char :=
  let sgn := splitLead '-' s
  let d1 := sgn.2.takeWhile Char.isDigit
  let r2 := sgn.2.dropWhile Char.isDigit
  let dot := splitLead '.' r2
  sgn.1 ++ d1 ++ dot.1 ++ dot.2.takeWhile Char.isDigit

/-- `verify_signed_float_input` (src/main.rs:23-31).  The regex can match
the empty string at position 0, so `captures` is never `None` and the
function always replaces `s` by the matched prefix. -/
def verify_signed_float_input (s : List Char) : List Char :=
  extractSignedFloat s

/-- C4: for all inputs, `angle_check` returns exactly
`(u^2*x*tan a)/g + p - (y*u^2)/g + ln (1 - p)` with
`p = (x*u)/(v*cos a)`. -/
theorem c4_residual_formula (x y u v a g : ℝ) :
    angle_check x y u v a g =
      (u ^ 2 * x * Real.tan a) / g + (x * u) / (v * Real.cos a)
        - (y * u ^ 2) / g + Real.log (1 - (x * u) / (v * Real.cos a)) := by
  simp only [angle_check]
  ring

/-- C8: the ammo lookup returns the matching profile for each of the six
catalog names, every profile has drag coefficient 0.01, mortar stone has
gravity 5.0 which is lower than the value 10.0 shared by the other five,
and any unknown name falls back to the first entry (`Shot`). -/
theorem c8_ammo_catalog :
    (Ammo.select "Shot" = Ammo.shot ∧ Ammo.select "AP Shot" = Ammo.ap_shot ∧
      Ammo.select "AP Shell" = Ammo.ap_shell ∧ Ammo.select "HE Shell" = Ammo.he_shell ∧
      Ammo.select "Mortar Stone" = Ammo.mortar_stone ∧
      Ammo.select "Smoke Shell" = Ammo.smoke_shell) ∧
    (Ammo.shot.drag = 0.01 ∧ Ammo.ap_shot.drag = 0.01 ∧ Ammo.ap_shell.drag = 0.01 ∧
      Ammo.he_shell.drag = 0.01 ∧ Ammo.mortar_stone.drag = 0.01 ∧
      Ammo.smoke_shell.drag = 0.01) ∧
    (Ammo.mortar_stone.gravity = 5.0 ∧ Ammo.shot.gravity = 10.0 ∧
      Ammo.ap_shot.gravity = 10.0 ∧ Ammo.ap_shell.gravity = 10.0 ∧
      Ammo.he_shell.gravity = 10.0 ∧ Ammo.smoke_shell.gravity = 10.0 ∧
      Ammo.mortar_stone.gravity < Ammo.shot.gravity) ∧
    (∀ s : String, s ≠ "Shot" → s ≠ "AP Shot" → s ≠ "AP Shell" → s ≠ "HE Shell" →
      s ≠ "Mortar Stone" → s ≠ "Smoke Shell" → Ammo.select s = Ammo.shot) := by
  refine ⟨⟨?_, ?_, ?_, ?_, ?_, ?_⟩, ⟨rfl, rfl, rfl, rfl, rfl, rfl⟩,
    ⟨rfl, rfl, rfl, rfl, rfl, rfl, ?_⟩, ?_⟩
  · simp [Ammo.select]
  · simp [Ammo.select]
  · simp [Ammo.select]
  · simp [Ammo.select]
  · simp [Ammo.select]
  · simp [Ammo.select]
  · show (5.0 : ℝ) < 10.0
    norm_num
  · intro s h1 h2 h3 h4 h5 h6
    simp [Ammo.select, h1, h2, h3, h4, h5, h6]

/-- Witness for C8: the unknown name "Flare" is none of the six catalog
names and falls back to `Shot`. -/
theorem c8_ammo_witness : Ammo.select "Flare" = Ammo.shot :=
  c8_ammo_catalog.2.2.2 "Flare" (by decide) (by decide) (by decide) (by decide)
    (by decide) (by decide)

lemma takeWhile_append_all {p : Char → Bool} :
    ∀ {A : List Char} (B : List Char), (∀ a ∈ A, p a = true) →
      (A ++ B).takeWhile p = A ++ B.takeWhile p := by
  intro A
  induction A with
  | nil => intro B _; rfl
  | cons a A ih =>
    intro B h
    have ha : p a = true := h a (List.mem_cons_self a A)
    simp [List.takeWhile, ha, ih B fun x hx => h x (List.mem_cons_of_mem a hx)]

lemma dropWhile_append_all {p : Char → Bool} :
    ∀ {A : List Char} (B : List Char), (∀ a ∈ A, p a = true) →
      (A ++ B).dropWhile p = B.dropWhile p := by
  intro A
  induction A with
  | nil => intro B _; rfl
  | cons a A ih =>
    intro B h
    have ha : p a = true := h a (List.mem_cons_self a A)
    simp [List.dropWhile, ha, ih B fun x hx => h x (List.mem_cons_of_mem a hx)]

lemma mem_takeWhile_sat {p : Char → Bool} :
    ∀ {l : List Char} {a : Char}, a ∈ l.takeWhile p → p a = true := by
  intro l
  induction l with
  | nil => intro a h; simp [List.takeWhile] at h
  | cons c t ih =>
    intro a h
    by_cases hc : p c
    · rw [List.takeWhile_cons_of_pos hc] at h
      rcases List.mem_cons.1 h with rfl | h
      · exact hc
      · exact ih h
    · rw [List.takeWhile_cons_of_neg hc] at h
      simp at h

lemma takeWhile_of_all {p : Char → Bool} {A : List Char}
    (h : ∀ a ∈ A, p a = true) : A.takeWhile p = A := by
  have := takeWhile_append_all (p := p) (A := A) [] h
  simpa using this

lemma dropWhile_head_not {p : Char → Bool} :
    ∀ {l : List Char} {c : Char} {t : List Char},
      l.dropWhile p = c :: t → p c = false := by
  intro l
  induction l with
  | nil => intro c t h; cases h
  | cons a l ih =>
    intro c t h
    by_cases ha : p a
    · rw [List.dropWhile_cons_of_pos ha] at h
      exact ih h
    · rw [List.dropWhile_cons_of_neg ha] at h
      cases h
      simpa using ha

/-- C10: the signed-float input sanitizer is idempotent — re-sanitizing
its own output leaves it unchanged. -/
theorem c10_sanitizer_idempotent (s : List Char) :
    verify_signed_float_input (verify_signed_float_input s) =
      verify_signed_float_input s := by
  show extractSignedFloat (extractSignedFloat s) = extractSignedFloat s
  -- names for the pieces of the first extraction
  obtain ⟨sgn, r1, hsgn⟩ : ∃ sgn r1, splitLead '-' s = (sgn, r1) := ⟨_, _, rfl⟩
  set d1 := r1.takeWhile Char.isDigit with hd1
  set r2 := r1.dropWhile Char.isDigit with hr2
  obtain ⟨dot, r3, hdot⟩ : ∃ dot r3, splitLead '.' r2 = (dot, r3) := ⟨_, _, rfl⟩
  set d2 := r3.takeWhile Char.isDigit with hd2
  have hout : extractSignedFloat s = sgn ++ d1 ++ dot ++ d2 := by
    simp [extractSignedFloat, hsgn, hdot, hd1, hr2, hd2]
  have hd1digit : ∀ a ∈ d1, Char.isDigit a = true := fun a ha => mem_takeWhile_sat ha
  have hd2digit : ∀ a ∈ d2, Char.isDigit a = true := fun a ha => mem_takeWhile_sat ha
  -- the sign piece is [] or ['-']
  have hsgn_cases : (sgn = [] ∧ ∀ c t, s = c :: t → c ≠ '-') ∨ sgn = ['-'] := by
    rcases s with _ | ⟨c, t⟩
    · simp [splitLead] at hsgn
      exact Or.inl ⟨hsgn.1, by intro c t h; cases h⟩
    · by_cases hc : c = '-'
      · right
        simp [splitLead, hc] at hsgn
        exact hsgn.1.symm
      · left
        simp [splitLead, hc] at hsgn
        refine ⟨hsgn.1, ?_⟩
        intro c' t' h hcontra
        cases h
        exact hc hcontra
  -- the dot piece is [] (and then d2 = []) or ['.']
  have hdot_cases : (dot = [] ∧ d2 = []) ∨ dot = ['.'] := by
    rcases hr2' : r2 with _ | ⟨c, t⟩
    · left
      rw [hr2'] at hdot
      simp [splitLead] at hdot
      refine ⟨hdot.1, ?_⟩
      rw [hd2, hdot.2]
      rfl
    · by_cases hc : c = '.'
      · right
        rw [hr2'] at hdot
        simp [splitLead, hc] at hdot
        exact hdot.1.symm
      · left
        rw [hr2'] at hdot
        simp [splitLead, hc] at hdot
        have hcnd : Char.isDigit c = false :=
          dropWhile_head_not (hr2.symm.trans hr2')
        refine ⟨hdot.1, ?_⟩
        rw [hd2, ← hdot.2, List.takeWhile_cons_of_neg (by simp [hcnd])]
  -- second extraction: the sign piece reproduces sgn and leaves d1 ++ dot ++ d2
  have hsplit2 : splitLead '-' (sgn ++ d1 ++ dot ++ d2) = (sgn, d1 ++ dot ++ d2) := by
    rcases hsgn_cases with ⟨h1, _⟩ | h1
    · rw [h1]
      simp only [List.nil_append]
      rcases hh : d1 ++ dot ++ d2 with _ | ⟨c, t⟩
      · rfl
      · have hc : c ≠ '-' := by
          have hcmem : c ∈ d1 ++ dot ++ d2 := by rw [hh]; exact List.mem_cons_self c t
          rcases List.mem_append.1 hcmem with hcm | hcm
          · rcases List.mem_append.1 hcm with hcm' | hcm'
            · intro hEq
              have := hd1digit c hcm'
              rw [hEq] at this
              cases this
            · rcases hdot_cases with ⟨hd, _⟩ | hd
              · rw [hd] at hcm'
                simp at hcm'
              · rw [hd] at hcm'
                simp at hcm'
                rw [hcm']
                intro hEq
                cases hEq
          · intro hEq
            have := hd2digit c hcm
            rw [hEq] at this
            cases this
        simp [splitLead, hc]
    · rw [h1]
      simp [splitLead]
  rw [hout]
  rcases hdot_cases with ⟨hdnil, hd2nil⟩ | hdotdot
  · -- no dot: output is sgn ++ d1, and re-extraction returns it unchanged
    rw [hdnil, hd2nil]
    simp only [List.append_nil]
    have hsplit2' : splitLead '-' (sgn ++ d1) = (sgn, d1) := by
      have := hsplit2
      rw [hdnil, hd2nil] at this
      simpa using this
    have hd1drop : d1.dropWhile Char.isDigit = [] :=
      List.dropWhile_eq_nil_iff.2 fun x hx => by simp [hd1digit x hx]
    simp only [extractSignedFloat, hsplit2', takeWhile_of_all hd1digit, hd1drop]
    simp [show splitLead '.' [] = ([], []) from rfl]
  · -- dot present: output is sgn ++ d1 ++ '.' :: d2
    rw [hdotdot]
    have hsplit2' : splitLead '-' (sgn ++ d1 ++ ['.'] ++ d2) = (sgn, d1 ++ ['.'] ++ d2) := by
      have := hsplit2
      rw [hdotdot] at this
      exact this
    have htake : (d1 ++ ['.'] ++ d2).takeWhile Char.isDigit = d1 := by
      rw [List.append_assoc, takeWhile_append_all _ hd1digit]
      simp [List.takeWhile]
    have hdrop : (d1 ++ ['.'] ++ d2).dropWhile Char.isDigit = '.' :: d2 := by
      rw [List.append_assoc, dropWhile_append_all _ hd1digit]
      simp [List.dropWhile]
    have hsplitdot : splitLead '.' ('.' :: d2) = (['.'], d2) := by
      simp [splitLead]
    simp only [extractSignedFloat, hsplit2', htake, hdrop, hsplitdot,
      takeWhile_of_all hd2digit]

/-- Modelled from the spec: the auxiliary equation of §4.3,
`gravity*range*sin a + drag*velocity*range - velocity^2*cos a`. -/
def fcpSpecF (x u v g a : ℝ) : ℝ :=
  g * x * Real.sin a + u * v * x - v ^ 2 * Real.cos a

/-- Modelled from the spec: the iterative bracket method of §4.3 — apply
the false-position update `c = b - f(b)*(b-a)/(f(b)-f(a))`, stop when
`|f(c)| < 1e-5`, and otherwise replace whichever endpoint shares `c`'s
function sign. -/
def fcpSpecIter (x u v g : ℝ) : ℕ → ℝ → ℝ → Option ℝ
  | 0, _, _ => none
  | n + 1, a, b =>
    let c := b - fcpSpecF x u v g b * (b - a) / (fcpSpecF x u v g b - fcpSpecF x u v g a)
    if |fcpSpecF x u v g c| < 1e-5 then some c
    else if rsignum (fcpSpecF x u v g c) = rsignum (fcpSpecF x u v g a) then
      fcpSpecIter x u v g n c b
    else fcpSpecIter x u v g n a c

/-- Modelled from the spec: `findCriticalPoint` per §4.3 — seeds
`a = atan2(gravity*range, velocity^2)` and `b = atan2(gravity*range,
-velocity^2)`, then the iterative bracket method. -/
def findCriticalPointSpec (x u v g : ℝ) (fuel : ℕ) : Option ℝ :=
  fcpSpecIter x u v g fuel (atan2 (g * x) (v ^ 2)) (atan2 (g * x) (-v ^ 2))

lemma fcp_f_eq_spec (x u v g a : ℝ) : fcp_f x u v g a = fcpSpecF x u v g a := by
  simp only [fcp_f, fcpSpecF]
  ring

lemma fcp_aux_eq_spec (x u v g : ℝ) :
    ∀ (n : ℕ) (a b : ℝ), fcp_aux x u v g n a b = fcpSpecIter x u v g n a b := by
  intro n
  induction n with
  | zero => intro a b; rfl
  | succ n ih =>
    intro a b
    simp only [fcp_aux, fcpSpecIter, fcp_f_eq_spec]
    split_ifs <;> first | rfl | apply ih

lemma fcp_aux_sound (x u v g : ℝ) :
    ∀ (n : ℕ) (a b c : ℝ), fcp_aux x u v g n a b = some c →
      |fcp_f x u v g c| < 0.00001 := by
  intro n
  induction n with
  | zero => intro a b c h; cases h
  | succ n ih =>
    intro a b c h
    simp only [fcp_aux] at h
    split_ifs at h with h1 h2
    · cases h
      exact h1
    · exact ih _ _ _ h
    · exact ih _ _ _ h

/-- C5: `find_critical_point` implements the iterative bracket
(false-position) method of the spec: it agrees everywhere with the
method described by §4.3 (same seeds, update, endpoint-replacement and
stop rule), and any value it returns satisfies `|f(c)| < 1e-5` for the
auxiliary function. -/
theorem c5_critical_point_refines_spec :
    (∀ x u v g fuel, find_critical_point x u v g fuel = findCriticalPointSpec x u v g fuel) ∧
    (∀ x u v g fuel, (find_critical_point x u v g fuel).elim True
      (fun c => |fcp_f x u v g c| < 1e-5)) := by
  constructor
  · intro x u v g fuel
    rw [find_critical_point, findCriticalPointSpec, fcp_aux_eq_spec]
    congr 2 <;> ring
  · intro x u v g fuel
    rcases h : find_critical_point x u v g fuel with _ | c
    · exact trivial
    · rw [find_critical_point] at h
      have := fcp_aux_sound x u v g fuel _ _ _ h
      simpa using this

lemma fcp_f_big_lower (a : ℝ) : 998 ≤ fcp_f 1 1000 1 1 a := by
  have h1 := Real.neg_one_le_sin a
  have h2 := Real.cos_le_one a
  simp only [fcp_f]
  nlinarith

lemma fcp_aux_big_none : ∀ (n : ℕ) (a b : ℝ), fcp_aux 1 1000 1 1 n a b = none := by
  intro n
  induction n with
  | zero => intro a b; rfl
  | succ n ih =>
    intro a b
    simp only [fcp_aux]
    have hbig : ∀ t : ℝ, ¬ |fcp_f 1 1000 1 1 t| < 0.00001 := by
      intro t h
      have := fcp_f_big_lower t
      have habs : fcp_f 1 1000 1 1 t ≤ |fcp_f 1 1000 1 1 t| := le_abs_self _
      linarith
    rw [if_neg (hbig _)]
    split_ifs <;> apply ih

/-- C9 counterexample: at the positive finite inputs
`(range, drag, velocity, gravity) = (1, 1000, 1, 1)` the false-position
loop of `find_critical_point` never returns: the auxiliary function is at
least 998 everywhere, so no iterate ever satisfies `|f(c)| < 1e-5` and
the seeds do not bracket a zero. -/
theorem c9_termination_counterexample :
    ¬ ∃ (fuel : ℕ) (c : ℝ), find_critical_point 1 1000 1 1 fuel = some c := by
  rintro ⟨fuel, c, h⟩
  rw [find_critical_point, fcp_aux_big_none] at h
  cases h

/-- C9 amended: termination is not guaranteed for all positive finite
inputs.  Any value the loop does return satisfies `|f(c)| < 1e-5`, but
when the drag term dominates (e.g. range 1, drag 1000, velocity 1,
gravity 1) the auxiliary function has no zero, the stop condition is
never met, and the loop never produces a value however much fuel it is
given. -/
theorem c9_termination_amended :
    (∀ x u v g fuel, (find_critical_point x u v g fuel).elim True
      (fun c => |fcp_f x u v g c| < 1e-5)) ∧
    (∀ fuel : ℕ, find_critical_point 1 1000 1 1 fuel = none) := by
  constructor
  · intro x u v g fuel
    rcases h : find_critical_point x u v g fuel with _ | c
    · exact trivial
    · rw [find_critical_point] at h
      have := fcp_aux_sound x u v g fuel _ _ _ h
      simpa using this
  · intro fuel
    rw [find_critical_point, fcp_aux_big_none]

lemma atan2_zero_of_pos {z : ℝ} (hz : 0 < z) : atan2 0 z = 0 := by
  have hcast : (⟨z, 0⟩ : ℂ) = (z : ℂ) := by
    apply Complex.ext <;> simp
  rw [atan2, hcast]
  exact Complex.arg_ofReal_of_nonneg hz.le

lemma atan2_zero_of_neg {z : ℝ} (hz : z < 0) : atan2 0 z = Real.pi := by
  have hcast : (⟨z, 0⟩ : ℂ) = (z : ℂ) := by
    apply Complex.ext <;> simp
  rw [atan2, hcast]
  exact Complex.arg_ofReal_of_neg hz

/-- C7: `calc_yaw` returns `-atan2(dx, dz)` normalized into `[0, 2*pi)`
by adding a full turn when negative; in particular the result always
lies in `[0, 2*pi)`, a target directly ahead (`dx = 0`, `dz > 0`) gives
yaw 0 and a target directly behind (`dx = 0`, `dz < 0`) gives yaw `pi`. -/
theorem c7_yaw_spec (dx dz : ℝ) :
    calc_yaw dx dz =
      (if -(atan2 dx dz) < 0 then -(atan2 dx dz) + 2 * Real.pi else -(atan2 dx dz)) ∧
    (0 ≤ calc_yaw dx dz ∧ calc_yaw dx dz < 2 * Real.pi) ∧
    (0 < dz → calc_yaw 0 dz = 0) ∧
    (dz < 0 → calc_yaw 0 dz = Real.pi) := by
  have harg_le : atan2 dx dz ≤ Real.pi := Complex.arg_le_pi _
  have harg_gt : -Real.pi < atan2 dx dz := Complex.neg_pi_lt_arg _
  have hpi := Real.pi_pos
  refine ⟨by rw [calc_yaw, tau], ?_, ?_, ?_⟩
  · rw [calc_yaw, tau]
    split_ifs with h
    · constructor
      · linarith
      · linarith
    · push_neg at h
      constructor
      · exact h
      · linarith
  · intro hdz
    rw [calc_yaw, atan2_zero_of_pos hdz]
    norm_num
  · intro hdz
    rw [calc_yaw, atan2_zero_of_neg hdz, tau]
    norm_num [hpi]
    linarith

/-- Witness for C7: targets directly ahead and directly behind. -/
theorem c7_yaw_witness : calc_yaw 0 1 = 0 ∧ calc_yaw 0 (-1) = Real.pi :=
  ⟨(c7_yaw_spec 0 1).2.2.1 one_pos, (c7_yaw_spec 0 (-1)).2.2.2 (by norm_num)⟩

/-- C2, code evaluation at the failing input
`(range, drop, drag, velocity, gravity, criticalPoint) = (0, 0, 1, 1, 10, pi/4)`:
the reachability-test value is exactly 0 (non-negative and within 1e-12
of zero), yet `find_angles` returns the residual value `(0, 0)` as the
pitch pair rather than the critical angle `pi/4`. -/
theorem c2_tangent_returns_residual_eval :
    find_angles 0 0 1 1 10 (Real.pi / 4) 1 = some (Except.ok (0, 0)) ∧
    Real.pi / 4 ≠ (0 : ℝ) := by
  constructor
  · have hac : angle_check 0 0 1 1 10 (Real.pi / 4) = 0 := by
      simp [angle_check]
    rw [find_angles, hac, find_angles_core]
    norm_num
  · have := Real.pi_pos
    intro h
    rw [div_eq_zero_iff] at h
    rcases h with h | h
    · linarith
    · norm_num at h

/-- C6 counterexample: with `criticalPoint = -1` at input
`(0, 0, 1, 1, 10)`, `find_angles` succeeds with the finite pair
`(0, 0)`, but `direct <= criticalPoint` fails (`0 <= -1` is false). -/
theorem c6_ordering_counterexample :
    find_angles 0 0 1 1 10 (-1) 1 = some (Except.ok (0, 0)) ∧
    ¬ ((0 : ℝ) ≤ -1) := by
  constructor
  · have hac : angle_check 0 0 1 1 10 (-1) = 0 := by
      simp [angle_check]
    rw [find_angles, hac, find_angles_core]
    norm_num
  · norm_num

lemma sqrt_two_lb : (1.414 : ℝ) ≤ Real.sqrt 2 := by
  have hs2 : Real.sqrt 2 * Real.sqrt 2 = 2 := Real.mul_self_sqrt (by norm_num)
  nlinarith [Real.sqrt_nonneg 2]

lemma sqrt_two_ub : Real.sqrt 2 ≤ (1.415 : ℝ) := by
  have hs2 : Real.sqrt 2 * Real.sqrt 2 = 2 := Real.mul_self_sqrt (by norm_num)
  nlinarith [Real.sqrt_nonneg 2]

/-- C1, code evaluation at the failing input
`(range, drop, drag, velocity, gravity, criticalPoint) = (1, 0, 1, 100, pi, pi/4)`:
the residual evaluated in the mathematically consistent way — at
`pitch = criticalPoint` with `gravity` in the gravity slot — is
non-negative, so per the claim the target is reachable; but the source
evaluates `angle_check` with `g` in the pitch slot and `critical_point`
in the gravity slot, obtains a negative value, and returns the
`Unreachable` error. -/
theorem c1_reachability_swapped_eval :
    find_angles 1 0 1 100 Real.pi (Real.pi / 4) 1 = some (Except.error "Out of range") ∧
    0 ≤ angle_check 1 0 1 100 (Real.pi / 4) Real.pi := by
  constructor
  · have hac : angle_check 1 0 1 100 Real.pi (Real.pi / 4) =
        Real.log (1 + 1 / 100) - 1 / 100 := by
      simp only [angle_check, Real.cos_pi, Real.tan_pi]
      norm_num
      ring
    have hneg : Real.log (1 + 1 / 100) - 1 / 100 < 0 := by
      have h := Real.log_lt_sub_one_of_pos (show (0:ℝ) < 1 + 1 / 100 by norm_num)
        (by norm_num)
      linarith
    rw [find_angles, hac, find_angles_core, if_pos hneg]
  · have hpi := Real.pi_pos
    have hs2 : Real.sqrt 2 * Real.sqrt 2 = 2 := Real.mul_self_sqrt (by norm_num)
    have hs2pos : 0 < Real.sqrt 2 := Real.sqrt_pos.2 (by norm_num)
    have hp : (1 * 1 : ℝ) / (100 * (Real.sqrt 2 / 2)) = Real.sqrt 2 / 100 := by
      rw [div_eq_div_iff (by positivity) (by norm_num)]
      nlinarith
    have hac : angle_check 1 0 1 100 (Real.pi / 4) Real.pi =
        1 / Real.pi + Real.sqrt 2 / 100 + Real.log (1 - Real.sqrt 2 / 100) := by
      simp only [angle_check, Real.cos_pi_div_four, Real.tan_pi_div_four, hp]
      ring_nf
    rw [hac]
    -- numeric bounds
    have hslb : (0.01414 : ℝ) ≤ Real.sqrt 2 / 100 := by
      have := sqrt_two_lb
      linarith
    have hsub : Real.sqrt 2 / 100 ≤ (0.01415 : ℝ) := by
      have := sqrt_two_ub
      linarith
    set s : ℝ := Real.sqrt 2 / 100 with hsdef
    have h1ms : (0 : ℝ) < 1 - s := by linarith
    -- log (1 - s) >= -(s / (1 - s))
    have hloglb : -(s / (1 - s)) ≤ Real.log (1 - s) := by
      have hinv := Real.log_le_sub_one_of_pos (inv_pos.2 h1ms)
      rw [Real.log_inv] at hinv
      have heq : (1 - s)⁻¹ - 1 = s / (1 - s) := by
        field_simp
      rw [heq] at hinv
      linarith
    -- 1 / pi > 0.317
    have hpinv : (0.317 : ℝ) ≤ 1 / Real.pi := by
      have hlt := Real.pi_lt_d2
      rw [le_div_iff₀ hpi]
      nlinarith
    have hfrac : s / (1 - s) ≤ (0.0144 : ℝ) := by
      rw [div_le_iff₀ h1ms]
      nlinarith
    linarith

/-- C3 counterexample: the low-arc (i = 0) probe update moves `b`
upward, not downward (`walk_update 0 0 = +0.1 degrees`), refuting
"decreasing for the low-arc branch"; moreover at input
`(range, drop, drag, velocity, gravity) = (0, 1, 1, 1, 1)` with
`criticalPoint = -1` the gate value is 1 (so the walk is reached), the
walk stops at its very first probe, and the residual at the bracket
endpoint `a = criticalPoint` is negative, not positive. -/
theorem c3_direction_counterexample :
    ¬ (walk_update 0 0 < 0) ∧
    1e-12 ≤ angle_check 0 1 1 1 1 (-1) ∧
    bracket_walk (fun b => angle_check 0 1 1 1 b 1) 0 1 b0lo = some b0lo ∧
    angle_check 0 1 1 1 (-1) 1 < 0 := by
  refine ⟨?_, ?_, ?_, ?_⟩
  · simp only [walk_update, if_pos rfl]
    norm_num
  · have : angle_check 0 1 1 1 1 (-1) = 1 := by
      simp [angle_check]
    rw [this]
    norm_num
  · have hres : angle_check 0 1 1 1 b0lo 1 = -1 := by
      simp [angle_check]
    rw [bracket_walk, hres]
    norm_num
  · have : angle_check 0 1 1 1 (-1) 1 = -1 := by
      simp [angle_check]
    rw [this]
    norm_num

/-- C3 amended: the probe `b` moves in fixed steps of 0.1 degrees,
*increasing* for the low-arc (i = 0) branch and *decreasing* for the
high-arc (i = 1) branch; the walk stops exactly when the residual at `b`
first becomes negative — the returned probe has negative residual and
every earlier probe had non-negative residual.  (The residual at the
`a = criticalPoint` endpoint is not checked by the walk and need not be
positive.) -/
theorem c3_walk_amended :
    (∀ b : ℝ, walk_update 0 b = b + 0.0017453292519943296 ∧
      walk_update 1 b = b - 0.0017453292519943296) ∧
    (∀ (resid : ℝ → ℝ) (i fuel : ℕ) (b c : ℝ),
      bracket_walk resid i fuel b = some c →
        resid c < 0 ∧ ∃ n : ℕ, c = (walk_update i)^[n] b ∧
          ∀ k < n, 0 ≤ resid ((walk_update i)^[k] b)) := by
  constructor
  · intro b
    constructor <;> simp [walk_update]
  · intro resid i fuel
    induction fuel with
    | zero => intro b c h; cases h
    | succ n ih =>
      intro b c h
      rw [bracket_walk] at h
      by_cases hb : resid b < 0
      · rw [if_pos hb] at h
        cases h
        refine ⟨hb, 0, rfl, ?_⟩
        intro k hk
        exact absurd hk (Nat.not_lt_zero k)
      · rw [if_neg hb] at h
        obtain ⟨hc, n', hcn, hall⟩ := ih _ _ h
        refine ⟨hc, n' + 1, ?_, ?_⟩
        · rw [Function.iterate_succ_apply]
          exact hcn
        · intro k hk
          cases k with
          | zero => simpa using not_lt.1 hb
          | succ j =>
            rw [Function.iterate_succ_apply]
            exact hall j (by omega)

/-- Witness for C3 amended: a constant negative residual makes the walk
stop at its initial probe. -/
theorem c3_walk_amended_witness :
    (fun _ : ℝ => (-1 : ℝ)) 5 < 0 ∧ ∃ n : ℕ, (5 : ℝ) = (walk_update 0)^[n] 5 ∧
      ∀ k < n, 0 ≤ (fun _ : ℝ => (-1 : ℝ)) ((walk_update 0)^[k] 5) :=
  c3_walk_amended.2 (fun _ => -1) 0 1 5 5 (by rw [bracket_walk]; norm_num)

lemma rsignum_of_pos {x : ℝ} (h : 0 < x) : rsignum x = 1 :=
  if_neg (not_lt.2 h.le)

lemma rsignum_of_neg {x : ℝ} (h : x < 0) : rsignum x = -1 :=
  if_pos h

lemma bracket_walk_neg (resid : ℝ → ℝ) (i : ℕ) :
    ∀ (fuel : ℕ) (b c : ℝ), bracket_walk resid i fuel b = some c → resid c < 0 := by
  intro fuel
  induction fuel with
  | zero => intro b c h; cases h
  | succ n ih =>
    intro b c h
    rw [bracket_walk] at h
    by_cases hb : resid b < 0
    · rw [if_pos hb] at h
      cases h
      exact hb
    · rw [if_neg hb] at h
      exact ih _ _ h

/-- The secant loop started from a genuine sign bracket
(`resid a > 0 > resid b`) can only return a value lying between the two
initial endpoints. -/
lemma secant_bounds (resid : ℝ → ℝ) :
    ∀ (n : ℕ) (a b c : ℝ), 0 < resid a → resid b < 0 →
      secant resid n a b = some c → min a b ≤ c ∧ c ≤ max a b := by
  intro n
  induction n with
  | zero => intro a b c _ _ h; cases h
  | succ n ih =>
    intro a b c ha hb h
    simp only [secant] at h
    set c1 := b - resid b * (b - a) / (resid b - resid a) with hc1def
    have hden : resid b - resid a < 0 := by linarith
    have ht0 : 0 < resid b / (resid b - resid a) := div_pos_of_neg_of_neg hb hden
    have ht1 : resid b / (resid b - resid a) < 1 := by
      have hfrac : resid a / (resid b - resid a) < 0 := div_neg_of_pos_of_neg ha hden
      have hne : resid b - resid a ≠ 0 := ne_of_lt hden
      have hsplit : resid b / (resid b - resid a) - resid a / (resid b - resid a) = 1 := by
        rw [div_sub_div_same, div_self hne]
      linarith
    have hc1t : c1 = b - resid b / (resid b - resid a) * (b - a) := by
      rw [hc1def]
      ring
    set t := resid b / (resid b - resid a) with htdef
    have hc1_bounds : min a b ≤ c1 ∧ c1 ≤ max a b := by
      rcases le_total a b with hab | hab
      · rw [min_eq_left hab, max_eq_right hab]
        constructor
        · have := mul_nonneg (by linarith : (0:ℝ) ≤ 1 - t)
            (by linarith : (0:ℝ) ≤ b - a)
          rw [hc1t]
          nlinarith
        · have := mul_nonneg ht0.le (by linarith : (0:ℝ) ≤ b - a)
          rw [hc1t]
          nlinarith
      · rw [min_eq_right hab, max_eq_left hab]
        constructor
        · have := mul_nonneg ht0.le (by linarith : (0:ℝ) ≤ a - b)
          rw [hc1t]
          nlinarith
        · have := mul_nonneg (by linarith : (0:ℝ) ≤ 1 - t)
            (by linarith : (0:ℝ) ≤ a - b)
          rw [hc1t]
          nlinarith
    split_ifs at h with h1 h2 h3
    · have hceq : c1 = c := Option.some.inj h
      rw [← hceq]
      exact hc1_bounds
    · -- residual at c1 shares the sign of resid a, so it is positive
      have hpos : 0 < resid c1 := by
        rw [rsignum_of_pos ha] at h2
        by_cases hneg : resid c1 < 0
        · rw [rsignum_of_neg hneg] at h2
          norm_num at h2
        · push_neg at hneg
          rcases hneg.lt_or_eq with hlt | heq
          · exact hlt
          · rw [← heq] at h1
            norm_num at h1
      have hrec := ih c1 b c hpos hb h
      constructor
      · calc min a b ≤ min c1 b := le_min hc1_bounds.1 (min_le_right a b)
          _ ≤ c := hrec.1
      · calc c ≤ max c1 b := hrec.2
          _ ≤ max a b := max_le hc1_bounds.2 (le_max_right a b)
    · -- residual at c1 shares the sign of resid b, so it is negative
      have hneg : resid c1 < 0 := by
        rw [rsignum_of_neg hb] at h3
        by_cases hneg' : resid c1 < 0
        · exact hneg'
        · rw [rsignum_of_pos] at h3
          · norm_num at h3
          · push_neg at hneg'
            rcases hneg'.lt_or_eq with hlt | heq
            · exact hlt
            · rw [← heq] at h1
              norm_num at h1
      have hrec := ih a c1 c ha hneg h
      constructor
      · calc min a b ≤ min a c1 := le_min (min_le_left a b) hc1_bounds.1
          _ ≤ c := hrec.1
      · calc c ≤ max a c1 := hrec.2
          _ ≤ max a b := max_le (le_max_left a b) hc1_bounds.2

/-- C6 amended: the claimed ordering holds for the dual root finder
(`find_angles_core`, which `find_angles` instantiates with the
trajectory residual) on the bracket-secant path, under the side
conditions the source leaves unchecked: the gate value is at least
1e-12, the residual at `criticalPoint` is positive, and each branch's
bracket probe lands on its own side of `criticalPoint`.  Then
`direct <= criticalPoint <= indirect`.  (Without these side conditions
the ordering can fail: the near-tangent branch returns the residual
value, which need not respect it.) -/
theorem c6_ordering_amended (resid : ℝ → ℝ) (cpa cp : ℝ) (fuel : ℕ) (d ind : ℝ)
    (hgate : 1e-12 ≤ cpa)
    (hcp : 0 < resid cp)
    (hlo : ∀ b, bracket_walk resid 0 fuel b0lo = some b → b ≤ cp)
    (hhi : ∀ b, bracket_walk resid 1 fuel b0hi = some b → cp ≤ b)
    (hres : find_angles_core resid cpa cp fuel = some (Except.ok (d, ind))) :
    d ≤ cp ∧ cp ≤ ind := by
  rw [find_angles_core] at hres
  rw [if_neg (by linarith : ¬ cpa < 0), if_neg (not_lt.2 hgate)] at hres
  split at hres
  · exact Option.noConfusion hres
  next blo hblo =>
    split at hres
    · exact Option.noConfusion hres
    next d' hd' =>
      split at hres
      · exact Option.noConfusion hres
      next bhi hbhi =>
        split at hres
        · exact Option.noConfusion hres
        next ind' hind' =>
          have hpair : d' = d ∧ ind' = ind := by
            have h1 := Option.some.inj hres
            have h2 := Except.ok.inj h1
            exact ⟨congrArg Prod.fst h2, congrArg Prod.snd h2⟩
          obtain ⟨rfl, rfl⟩ := hpair
          have hblo_le : blo ≤ cp := hlo blo hblo
          have hbhi_ge : cp ≤ bhi := hhi bhi hbhi
          have hblo_neg : resid blo < 0 := bracket_walk_neg resid 0 fuel _ _ hblo
          have hbhi_neg : resid bhi < 0 := bracket_walk_neg resid 1 fuel _ _ hbhi
          have hd_bounds := secant_bounds resid fuel cp blo d' hcp hblo_neg hd'
          have hi_bounds := secant_bounds resid fuel cp bhi ind' hcp hbhi_neg hind'
          constructor
          · have := hd_bounds.2
            rw [max_eq_left hblo_le] at this
            exact this
          · have := hi_bounds.1
            rw [min_eq_left hbhi_ge] at this
            exact this

/-- A step-function residual used to exercise the bracket-secant path of
`find_angles_core` on concrete inputs. -/
def residLadder (b : ℝ) : ℝ :=
  if b ≤ -1 then -1
  else if b ≤ -(1/2) then 0
  else if b < 1/2 then 1
  else if b < 1 then 0
  else -1

lemma b0lo_bounds : -1.58 < b0lo ∧ b0lo ≤ -1 := by
  have h1 := Real.pi_gt_d2
  have h2 := Real.pi_lt_d2
  have hpi := Real.pi_pos
  have hq1 : (0:ℝ) < 0.011111111 / (2 * Real.pi) := by positivity
  have hq2 : 0.011111111 / (2 * Real.pi) < 0.002 := by
    rw [div_lt_iff₀ (by positivity)]
    nlinarith
  have hb : b0lo = -(0.011111111 / (2 * Real.pi)) - 2 * Real.pi / 4 := by
    rw [b0lo, tau, neg_div]
  rw [hb]
  constructor <;> nlinarith

lemma b0hi_bounds : 1 ≤ b0hi ∧ b0hi < 2 := by
  have h1 := Real.pi_gt_d2
  have h2 := Real.pi_lt_d2
  have hpi := Real.pi_pos
  have hq1 : (0:ℝ) < 0.011111111 / (2 * Real.pi) := by positivity
  have hq2 : 0.011111111 / (2 * Real.pi) < 0.002 := by
    rw [div_lt_iff₀ (by positivity)]
    nlinarith
  have hb : b0hi = -(0.011111111 / (2 * Real.pi)) + 2 * Real.pi / 4 := by
    rw [b0hi, tau, neg_div]
  rw [hb]
  constructor <;> nlinarith

lemma residLadder_b0lo : residLadder b0lo = -1 := by
  rw [residLadder, if_pos b0lo_bounds.2]

lemma residLadder_b0hi : residLadder b0hi = -1 := by
  have h1 := b0hi_bounds.1
  rw [residLadder, if_neg (by linarith), if_neg (by linarith), if_neg (by linarith),
    if_neg (by linarith)]

lemma residLadder_zero : residLadder 0 = 1 := by
  rw [residLadder, if_neg (by norm_num), if_neg (by norm_num), if_pos (by norm_num)]

lemma residLadder_b0lo_half : residLadder (b0lo / 2) = 0 := by
  have h1 := b0lo_bounds.1
  have h2 := b0lo_bounds.2
  rw [residLadder, if_neg (by linarith), if_pos (by linarith)]

lemma residLadder_b0hi_half : residLadder (b0hi / 2) = 0 := by
  have h1 := b0hi_bounds.1
  have h2 := b0hi_bounds.2
  rw [residLadder, if_neg (by linarith), if_neg (by linarith), if_neg (by linarith),
    if_pos (by linarith)]

lemma ladder_walk_lo : bracket_walk residLadder 0 1 b0lo = some b0lo := by
  rw [bracket_walk, residLadder_b0lo]
  norm_num

lemma ladder_walk_hi : bracket_walk residLadder 1 1 b0hi = some b0hi := by
  rw [bracket_walk, residLadder_b0hi]
  norm_num

lemma ladder_secant_lo : secant residLadder 1 0 b0lo = some (b0lo / 2) := by
  rw [secant]
  have hc1 : b0lo - residLadder b0lo * (b0lo - 0) / (residLadder b0lo - residLadder 0) =
      b0lo / 2 := by
    rw [residLadder_b0lo, residLadder_zero]
    ring
  rw [hc1, residLadder_b0lo_half]
  norm_num

lemma ladder_secant_hi : secant residLadder 1 0 b0hi = some (b0hi / 2) := by
  rw [secant]
  have hc1 : b0hi - residLadder b0hi * (b0hi - 0) / (residLadder b0hi - residLadder 0) =
      b0hi / 2 := by
    rw [residLadder_b0hi, residLadder_zero]
    ring
  rw [hc1, residLadder_b0hi_half]
  norm_num

lemma ladder_core :
    find_angles_core residLadder 1 0 1 = some (Except.ok (b0lo / 2, b0hi / 2)) := by
  rw [find_angles_core, if_neg (by norm_num), if_neg (by norm_num)]
  simp only [ladder_walk_lo, ladder_secant_lo, ladder_walk_hi, ladder_secant_hi]

/-- Witness for C6 amended: the bracket-secant path of
`find_angles_core` run on the step residual returns the pair
`(b0lo/2, b0hi/2)`, which straddles the critical point 0. -/
theorem c6_ordering_amended_witness :
    find_angles_core residLadder 1 0 1 = some (Except.ok (b0lo / 2, b0hi / 2)) ∧
    b0lo / 2 ≤ 0 ∧ 0 ≤ b0hi / 2 := by
  have hgate : (1e-12 : ℝ) ≤ 1 := by norm_num
  have hcp : 0 < residLadder 0 := by
    rw [residLadder_zero]
    norm_num
  have hlo : ∀ b, bracket_walk residLadder 0 1 b0lo = some b → b ≤ 0 := by
    intro b h
    rw [ladder_walk_lo] at h
    have hb := Option.some.inj h
    have := b0lo_bounds.2
    linarith [hb ▸ this]
  have hhi : ∀ b, bracket_walk residLadder 1 1 b0hi = some b → (0:ℝ) ≤ b := by
    intro b h
    rw [ladder_walk_hi] at h
    have hb := Option.some.inj h
    have := b0hi_bounds.1
    linarith [hb ▸ this]
  exact ⟨ladder_core,
    c6_ordering_amended residLadder 1 0 1 (b0lo / 2) (b0hi / 2) hgate hcp hlo hhi ladder_core⟩

end
